import Mathlib

/-!
Verification of the gossip-reachability engine.

A shallow embedding of the gossip reachability repository
(`src/model.py`, `src/protocols.py`, `src/canonical.py`, `src/engine.py`).

Python `frozenset`s of small naturals are embedded as strictly sorted,
duplicate-free `List ℕ` values; the observable operations of the source
(membership, union, subset, removal) are defined below.  Agents `'a'..` and
secrets `'A'..` are identified with their indices `0..n-1`, exactly as the
code itself does via `agents.index` and `ord(x) - 65`.  States are immutable
values here as in the source (`update` returns a fresh `ProtocolState`).
-/

/-- Boolean membership in a list of naturals (embeds Python `in` on sets). -/
def smem (x : ℕ) : List ℕ → Bool
  | [] => false
  | y :: ys => x == y || smem x ys

/-- Insert into a sorted duplicate-free list, keeping it sorted. -/
def sinsert (x : ℕ) : List ℕ → List ℕ
  | [] => [x]
  | y :: ys => if x < y then x :: y :: ys else if x = y then y :: ys else y :: sinsert x ys

/-- Set union of sorted duplicate-free lists (embeds Python `sa | sb`). -/
def sunion (xs ys : List ℕ) : List ℕ := xs.foldr sinsert ys

/-- Boolean subset test (embeds Python `issubset`). -/
def ssubsetB (xs ys : List ℕ) : Bool := xs.all (fun x => smem x ys)

/-- Remove an element (embeds Python `set.remove` / `set.discard`). -/
def sremove (x : ℕ) (l : List ℕ) : List ℕ := l.filter (fun y => y ≠ x)

/-- Sorted duplicate-free form of a list (embeds Python `set(...)` built
from an iterable). -/
def toSet (l : List ℕ) : List ℕ := l.foldr sinsert []

/-! The canonicalizer of `src/canonical.py` (`canonical_key`).  Inner sets
are already sorted duplicate-free int lists, so `_normalize_groups` is
`List.map toSet`.  Python's `sort(key=lambda g: (-len(g), tuple(sorted(g))))`
is a stable ascending sort by (size descending, content lexicographic);
groups with equal sort keys are identical lists, so any correct sorting
algorithm produces the same output — insertion sort is used here. -/

/-- Python tuple `<=` on int tuples: lexicographic, a proper prefix is
smaller. -/
def lexLe : List ℕ → List ℕ → Bool
  | [], _ => true
  | _ :: _, [] => false
  | a :: as_, b :: bs => if a < b then true else if b < a then false else lexLe as_ bs

/-- The sort key `(-len(g), tuple(sorted(g)))` of `canonical_key`, as a
boolean `≤` test. -/
def groupLe (g h : List ℕ) : Bool :=
  if g.length = h.length then lexLe g h else decide (h.length < g.length)

/-- Insertion into a list of groups sorted by `le`. -/
def insBy (le : List ℕ → List ℕ → Bool) (x : List ℕ) : List (List ℕ) → List (List ℕ)
  | [] => [x]
  | y :: ys => if le x y then x :: y :: ys else y :: insBy le x ys

/-- Sort a list of groups by `le` (insertion sort). -/
def sortGroups (le : List ℕ → List ℕ → Bool) (l : List (List ℕ)) : List (List ℕ) :=
  l.foldr (insBy le) []

/-- Insertion into a sorted `List ℕ`. -/
def insNat (x : ℕ) : List ℕ → List ℕ
  | [] => [x]
  | y :: ys => if x ≤ y then x :: y :: ys else y :: insNat x ys

/-- Ascending sort of a `List ℕ` (Python `sorted`). -/
def sortNat (l : List ℕ) : List ℕ := l.foldr insNat []

/-- First-seen scan of `_relabel_compact`: walk the groups in order, walk
each (sorted) group left to right, and append each secret id to the
accumulator the first time it is seen.  `remap[v]` is the index of `v` in
the result. -/
def assignAll (gs : List (List ℕ)) : List ℕ :=
  gs.foldl (fun acc g => g.foldl (fun a v => if smem v a then a else a ++ [v]) acc) []

/-- Index of the first occurrence (total: returns the length when the value
is absent, which never happens on the inputs produced here). -/
def idxOf (v : ℕ) : List ℕ → ℕ
  | [] => 0
  | x :: xs => if v = x then 0 else idxOf v xs + 1

/-- Embeds `canonical_key` of `src/canonical.py`: normalize the groups,
pre-sort by (size descending, content ascending), compact-relabel the
secret ids in first-seen order along that traversal, rewrite each group and
sort it, then sort the rewritten groups by the same key. -/
def canonical_key (ss : List (List ℕ)) : List (List ℕ) :=
  let groups := ss.map toSet
  let pre := sortGroups groupLe groups
  let assigned := assignAll pre
  let canon := pre.map (fun g => sortNat (g.map (fun v => idxOf v assigned)))
  sortGroups groupLe canon

/-! The data model of `src/model.py`.  `Distribution.agents` is the tuple
`('a', 'b', ...)`; only its length and the index of each agent matter
(`agents.index(chr(ord('a')+i)) = i`), so it is embedded as the count
`nAgents`. -/

structure Distribution where
  nAgents : ℕ
  secrets : List (List ℕ)
deriving DecidableEq, Repr

/-- Embeds `Distribution.initial(n)`: agent `i` knows exactly its own
secret (`chr(65+i)`, i.e. `i`). -/
def Distribution.initial (n : ℕ) : Distribution :=
  ⟨n, (List.range n).map (fun i => [i])⟩

/-- Embeds `Distribution.apply_call`: both ends of the call end up with the
union of their previous secret sets; nobody else changes. -/
def Distribution.apply_call (d : Distribution) (a b : ℕ) : Distribution :=
  let sa := d.secrets.getD a []
  let sb := d.secrets.getD b []
  let u := sunion sa sb
  ⟨d.nAgents, (d.secrets.set a u).set b u⟩

/-- Embeds `Distribution.is_final`: every agent knows the union of all
secrets. -/
def Distribution.is_final (d : Distribution) : Bool :=
  let all_s := d.secrets.foldr sunion []
  d.secrets.all (fun s => s = all_s)

/-- Unordered pair (min, max): embeds the Python `frozenset` of the two
endpoints of a call. -/
def pairOf (a b : ℕ) : ℕ × ℕ := (min a b, max a b)

structure ProtocolState where
  distribution : Distribution
  tokens : List ℕ
  calledPairs : List (ℕ × ℕ)
deriving DecidableEq, Repr

/-- Embeds `ProtocolState.update(call, protocol)` of `src/model.py`: apply
the knowledge union, move the caller's token to the callee under TOK,
discard the callee's token under SPI, and record the unordered pair. -/
def ProtocolState.update (s : ProtocolState) (call : ℕ × ℕ) (protocol : String) : ProtocolState :=
  let a := call.1
  let b := call.2
  let dist2 := s.distribution.apply_call a b
  let tokens1 :=
    if protocol = "TOK" then
      if smem a s.tokens then sinsert b (sremove a s.tokens) else s.tokens
    else if protocol = "SPI" then sremove b s.tokens
    else s.tokens
  let pairs1 :=
    if pairOf a b ∈ s.calledPairs then s.calledPairs else s.calledPairs ++ [pairOf a b]
  ⟨dist2, tokens1, pairs1⟩

/-- Embeds `ProtocolState.initial(dist, protocol)`: tokens for all agents
under TOK/SPI, none otherwise; `called_pairs` starts empty. -/
def ProtocolState.initial (d : Distribution) (protocol : String) : ProtocolState :=
  ⟨d, if protocol = "TOK" ∨ protocol = "SPI" then List.range d.nAgents else [], []⟩

/-! The transition rules of `src/protocols.py`. -/

/-- Embeds `possible_calls`: all ordered pairs of distinct agents, in
caller-major order. -/
def possible_calls (s : ProtocolState) : List (ℕ × ℕ) :=
  (List.range s.distribution.nAgents).flatMap (fun a =>
    (List.range s.distribution.nAgents).filterMap (fun b =>
      if a = b then none else some (a, b)))

def allow_ANY (_s : ProtocolState) (_c : ℕ × ℕ) : Bool := true

def allow_CO (s : ProtocolState) (c : ℕ × ℕ) : Bool :=
  !(decide (pairOf c.1 c.2 ∈ s.calledPairs))

/-- Embeds `allow_LNS`: the caller must learn at least one new secret.  The
code tests only the subset condition — `called_pairs` is not consulted. -/
def allow_LNS (s : ProtocolState) (c : ℕ × ℕ) : Bool :=
  let sa := s.distribution.secrets.getD c.1 []
  let sb := s.distribution.secrets.getD c.2 []
  !(ssubsetB sb sa)

def allow_TOK (s : ProtocolState) (c : ℕ × ℕ) : Bool := smem c.1 s.tokens

def allow_SPI (s : ProtocolState) (c : ℕ × ℕ) : Bool := smem c.1 s.tokens

/-- Embeds `ALLOW_MAP`: note there is no entry for `"ATK"`. -/
def ALLOW_MAP (p : String) : Option (ProtocolState → ℕ × ℕ → Bool) :=
  if p = "ANY" then some allow_ANY
  else if p = "CO" then some allow_CO
  else if p = "LNS" then some allow_LNS
  else if p = "TOK" then some allow_TOK
  else if p = "SPI" then some allow_SPI
  else none

/-- Embeds `permitted_calls`: `ALLOW_MAP[protocol]` raises `KeyError` for a
protocol outside the map, before any call is inspected; the exception is
embedded as `Except.error`. -/
def permitted_calls (s : ProtocolState) (protocol : String) : Except String (List (ℕ × ℕ)) :=
  match ALLOW_MAP protocol with
  | none => .error ("KeyError: " ++ protocol)
  | some f => .ok ((possible_calls s).filter (f s))

/-! The engine of `src/engine.py`. -/

abbrev Key := List (List ℕ)

/-- Embeds `_KEYS_MODE_AVAILABLE`: the compatibility patch at the bottom of
`src/model.py` unconditionally installs `Distribution.from_canonical` /
`from_secrets` / `from_key` and `ProtocolState.from_distribution`, and
`ProtocolState.initial` exists, so every capability probe in `engine.py`
succeeds and the flag is `True` in every run. -/
def keysModeAvailable : Bool := true

structure ReachabilityEngine where
  protocol : String
  useKeysMode : Bool
deriving DecidableEq, Repr

/-- Embeds `ReachabilityEngine.__init__`: assert the name is one of the six
admitted names, then set `_use_keys_mode = bool(_KEYS_MODE_AVAILABLE)` —
with no protocol gating.  The failed `assert` is an `Except.error`. -/
def mkEngine (protocol : String) : Except String ReachabilityEngine :=
  if protocol = "ANY" ∨ protocol = "CO" ∨ protocol = "LNS" ∨ protocol = "TOK"
      ∨ protocol = "SPI" ∨ protocol = "ATK" then
    .ok ⟨protocol, keysModeAvailable⟩
  else
    .error ("Unknown protocol: " ++ protocol)

/-- Embeds `_build_state_from_key`: `Distribution.from_canonical` falls back
to `Distribution.initial(n)` (with `n` from `_infer_n_from_key`, i.e.
`max(len(key), max_id+1, 0)`) and overwrites `secrets` with the key's
groups; the state is then built by `ProtocolState.initial(dist, protocol)` —
fresh tokens and an empty `called_pairs`. -/
def build_state_from_key (k : Key) (protocol : String) : ProtocolState :=
  let maxIdPlus1 := k.foldl (fun acc row => row.foldl (fun m v => max m (v + 1)) acc) 0
  let n := max k.length maxIdPlus1
  ProtocolState.initial ⟨n, k⟩ protocol

structure BfsResult where
  reachable_count : ℕ
  layers : List (ℕ × List Key)
  layer_sizes : List (ℕ × ℕ)
  transitions : ℕ
deriving DecidableEq, Repr

/-- Embeds `layers.setdefault(d, set()).add(k)`.  Keys are only ever added
when new to the global `seen` set, so the plain append keeps each layer
duplicate-free, and depth entries appear in insertion order as in a Python
dict. -/
def layersAdd (d : ℕ) (k : Key) (layers : List (ℕ × List Key)) : List (ℕ × List Key) :=
  if layers.any (fun p => p.1 == d) then
    layers.map (fun p => if p.1 = d then (p.1, p.2 ++ [k]) else p)
  else
    layers ++ [(d, [k])]

/-- The dict comprehension for `layer_sizes`. -/
def layerSizes (layers : List (ℕ × List Key)) : List (ℕ × ℕ) :=
  layers.map (fun p => (p.1, p.2.length))

/-- One popped state of the serial BFS: the `for call in permitted_calls`
loop with its per-parent `local_seen` dedup, the `transitions` counter, and
the discovery of new keys.  Returns (local seen, new queue items, seen,
layers, transitions). -/
def serialExpand (protocol : String) (state : ProtocolState) (depth : ℕ)
    (calls : List (ℕ × ℕ)) (seen : List Key) (layers : List (ℕ × List Key))
    (transitions : ℕ) :
    List Key × List (ProtocolState × ℕ) × List Key × List (ℕ × List Key) × ℕ :=
  calls.foldl
    (fun acc call =>
      let localSeen := acc.1
      let newItems := acc.2.1
      let seen := acc.2.2.1
      let layers := acc.2.2.2.1
      let transitions := acc.2.2.2.2
      let ns := state.update call protocol
      let k := canonical_key ns.distribution.secrets
      if k ∈ localSeen then acc
      else
        let localSeen := localSeen ++ [k]
        let transitions := transitions + 1
        if k ∈ seen then (localSeen, newItems, seen, layers, transitions)
        else
          (localSeen, newItems ++ [(ns, depth + 1)], seen ++ [k],
            layersAdd (depth + 1) k layers, transitions))
    ([], [], seen, layers, transitions)

/-- The serial BFS `while queue:` loop, fuelled.  The fuel only bounds the
number of pops (the Python loop terminates because the key space is
finite); every result proved below is produced with the queue exhausted,
never by exhausting the fuel. -/
def bfsLoop (protocol : String) (maxDepth : ℕ) :
    ℕ → List (ProtocolState × ℕ) → List Key → List (ℕ × List Key) → ℕ →
    Except String BfsResult
  | 0, _, _, _, _ => .error "out of fuel"
  | _ + 1, [], seen, layers, transitions =>
      .ok ⟨seen.length, layers, layerSizes layers, transitions⟩
  | fuel + 1, (state, depth) :: rest, seen, layers, transitions =>
      if depth = maxDepth then bfsLoop protocol maxDepth fuel rest seen layers transitions
      else
        match permitted_calls state protocol with
        | .error e => .error e
        | .ok calls =>
            let r := serialExpand protocol state depth calls seen layers transitions
            bfsLoop protocol maxDepth fuel (rest ++ r.2.1) r.2.2.1 r.2.2.2.1 r.2.2.2.2

def bfsFuel : ℕ := 1000000

/-- Embeds `ReachabilityEngine.bfs(n, max_depth)` — the serial engine. -/
def bfs (protocol : String) (n : ℕ) (maxDepth : ℕ) : Except String BfsResult :=
  let start_dist := Distribution.initial n
  let root := ProtocolState.initial start_dist protocol
  let start_key := canonical_key start_dist.secrets
  let seen := [start_key]
  let layers := [(0, [start_key])]
  if maxDepth = 0 then .ok ⟨seen.length, layers, layerSizes layers, 0⟩
  else bfsLoop protocol maxDepth bfsFuel [(root, 0)] seen layers 0

/-- Embeds `chunked(seq, size)`: split into consecutive batches.  Fuelled by
the list length (always sufficient) so that it reduces by `rfl`; agrees
with the Python generator for every `size ≥ 1` (the engine always passes a
positive `batch_size`). -/
def chunkedGo {α : Type} (size : ℕ) : ℕ → List α → List (List α)
  | 0, _ => []
  | _ + 1, [] => []
  | f + 1, l => l.take size :: chunkedGo size f (l.drop size)

def chunked {α : Type} (l : List α) (size : ℕ) : List (List α) :=
  if size = 0 then [] else chunkedGo size l.length l

/-- One source key of `_expand_batch` in `'keys'` mode: rebuild a
representative state, expand its admitted calls with per-parent
`local_seen` and whole-batch `batch_seen` dedup.  Carries (batch seen, out
keys). -/
def expandKeysGo (protocol : String) :
    List Key → List Key → List Key → Except String (List Key × List Key)
  | [], batchSeen, outKeys => .ok (batchSeen, outKeys)
  | k0 :: rest, batchSeen, outKeys =>
      let st := build_state_from_key k0 protocol
      match permitted_calls st protocol with
      | .error e => .error e
      | .ok calls =>
          let r := calls.foldl
            (fun (acc : List Key × List Key × List Key) call =>
              let localSeen := acc.1
              let bSeen := acc.2.1
              let out := acc.2.2
              let ns := st.update call protocol
              let k := canonical_key ns.distribution.secrets
              if k ∈ localSeen then acc
              else if k ∈ bSeen then (localSeen ++ [k], bSeen, out)
              else (localSeen ++ [k], bSeen ++ [k], out ++ [k]))
            ([], batchSeen, outKeys)
          expandKeysGo protocol rest r.2.1 r.2.2

/-- Embeds `_expand_batch(('keys', payload, protocol))`: the batch's
deduplicated key list (no states are shipped back). -/
def expandBatchKeys (protocol : String) (keys : List Key) : Except String (List Key) :=
  (expandKeysGo protocol keys [] []).map (fun r => r.2)

/-- One parent state of `_expand_batch` in `'states'` mode; carries
(batch seen, out keys, out states). -/
def expandStatesGo (protocol : String) :
    List ProtocolState → List Key → List Key → List ProtocolState →
    Except String (List Key × List Key × List ProtocolState)
  | [], batchSeen, outKeys, outStates => .ok (batchSeen, outKeys, outStates)
  | st :: rest, batchSeen, outKeys, outStates =>
      match permitted_calls st protocol with
      | .error e => .error e
      | .ok calls =>
          let r := calls.foldl
            (fun (acc : List Key × List Key × List Key × List ProtocolState) call =>
              let localSeen := acc.1
              let bSeen := acc.2.1
              let ks := acc.2.2.1
              let sts := acc.2.2.2
              let ns := st.update call protocol
              let k := canonical_key ns.distribution.secrets
              if k ∈ localSeen then acc
              else if k ∈ bSeen then (localSeen ++ [k], bSeen, ks, sts)
              else (localSeen ++ [k], bSeen ++ [k], ks ++ [k], sts ++ [ns]))
            ([], batchSeen, outKeys, outStates)
          expandStatesGo protocol rest r.2.1 r.2.2.1 r.2.2.2

/-- Embeds `_expand_batch(('states', payload, protocol))`: parallel lists of
keys and matching successor states. -/
def expandBatchStates (protocol : String) (states : List ProtocolState) :
    Except String (List Key × List ProtocolState) :=
  (expandStatesGo protocol states [] [] []).map (fun r => r.2)

/-- Orchestrator merge for one depth in keys mode: fold every batch's keys
into `seen` / `layers[depth+1]` / the next frontier, adding `len(keys)` to
`transitions`.  Batch results arrive in dispatch order (`ex.map`). -/
def processBatchesKeys (protocol : String) (depth : ℕ) :
    List (List Key) → List Key → List Key → List (ℕ × List Key) → ℕ →
    Except String (List Key × List Key × List (ℕ × List Key) × ℕ)
  | [], nextFrontier, seen, layers, transitions =>
      .ok (nextFrontier, seen, layers, transitions)
  | batch :: more, nextFrontier, seen, layers, transitions =>
      match expandBatchKeys protocol batch with
      | .error e => .error e
      | .ok keys =>
          let transitions := transitions + keys.length
          let acc := keys.foldl
            (fun (acc : List Key × List Key × List (ℕ × List Key)) k =>
              if k ∈ acc.2.1 then acc
              else (acc.1 ++ [k], acc.2.1 ++ [k], layersAdd (depth + 1) k acc.2.2))
            (nextFrontier, seen, layers)
          processBatchesKeys protocol depth more acc.1 acc.2.1 acc.2.2 transitions

/-- Orchestrator merge for one depth in states mode: `zip(keys, sts)`. -/
def processBatchesStates (protocol : String) (depth : ℕ) :
    List (List ProtocolState) → List ProtocolState → List Key → List (ℕ × List Key) → ℕ →
    Except String (List ProtocolState × List Key × List (ℕ × List Key) × ℕ)
  | [], nextFrontier, seen, layers, transitions =>
      .ok (nextFrontier, seen, layers, transitions)
  | batch :: more, nextFrontier, seen, layers, transitions =>
      match expandBatchStates protocol batch with
      | .error e => .error e
      | .ok (keys, states) =>
          let transitions := transitions + keys.length
          let acc := (keys.zip states).foldl
            (fun (acc : List ProtocolState × List Key × List (ℕ × List Key)) ks =>
              if ks.1 ∈ acc.2.1 then acc
              else (acc.1 ++ [ks.2], acc.2.1 ++ [ks.1], layersAdd (depth + 1) ks.1 acc.2.2))
            (nextFrontier, seen, layers)
          processBatchesStates protocol depth more acc.1 acc.2.1 acc.2.2 transitions

/-- The `for depth in range(max_depth)` loop of `bfs_parallel` in keys
mode; breaks early on an empty frontier. -/
def parLoopKeys (protocol : String) (batchSize : ℕ) :
    ℕ → ℕ → List Key → List Key → List (ℕ × List Key) → ℕ →
    Except String BfsResult
  | 0, _, _, seen, layers, transitions =>
      .ok ⟨seen.length, layers, layerSizes layers, transitions⟩
  | _ + 1, _, [], seen, layers, transitions =>
      .ok ⟨seen.length, layers, layerSizes layers, transitions⟩
  | remaining + 1, depth, frontier, seen, layers, transitions =>
      match processBatchesKeys protocol depth (chunked frontier batchSize) [] seen layers transitions with
      | .error e => .error e
      | .ok (nextFrontier, seen, layers, transitions) =>
          parLoopKeys protocol batchSize remaining (depth + 1) nextFrontier seen layers transitions

/-- The `for depth in range(max_depth)` loop of `bfs_parallel` in states
mode. -/
def parLoopStates (protocol : String) (batchSize : ℕ) :
    ℕ → ℕ → List ProtocolState → List Key → List (ℕ × List Key) → ℕ →
    Except String BfsResult
  | 0, _, _, seen, layers, transitions =>
      .ok ⟨seen.length, layers, layerSizes layers, transitions⟩
  | _ + 1, _, [], seen, layers, transitions =>
      .ok ⟨seen.length, layers, layerSizes layers, transitions⟩
  | remaining + 1, depth, frontier, seen, layers, transitions =>
      match processBatchesStates protocol depth (chunked frontier batchSize) [] seen layers transitions with
      | .error e => .error e
      | .ok (nextFrontier, seen, layers, transitions) =>
          parLoopStates protocol batchSize remaining (depth + 1) nextFrontier seen layers transitions

/-- Embeds `ReachabilityEngine.bfs_parallel(n, max_depth, workers,
batch_size, verbose)`.  `workers` only influences scheduling (the
`chunksize` passed to `ex.map`), never the merged result, and `verbose`
only prints, so neither affects the embedding; the shipping mode is
`self._use_keys_mode = bool(_KEYS_MODE_AVAILABLE)` — keys mode whenever the
capability probe succeeds, for every protocol. -/
def bfs_parallel (protocol : String) (n maxDepth _workers batchSize : ℕ) :
    Except String BfsResult :=
  let start_dist := Distribution.initial n
  let start_key := canonical_key start_dist.secrets
  let seen := [start_key]
  let layers := [(0, [start_key])]
  if maxDepth = 0 then .ok ⟨seen.length, layers, layerSizes layers, 0⟩
  else if keysModeAvailable then
    parLoopKeys protocol batchSize maxDepth 0 [start_key] seen layers 0
  else
    parLoopStates protocol batchSize maxDepth 0 [ProtocolState.initial start_dist protocol]
      seen layers 0

/-! The exact canonical form, specification reference semantics.

Modelled from the spec: the repository implements only the heuristic
`canonical_key`; the exact permutation-search canonical form described in
spec section 4.2(a) — enumerate all `n!` consistent relabelings of a
distribution, render each as a tuple of sorted integer tuples, and keep the
lexicographically smallest — exists nowhere under `src/`.  It is modelled
here over the spec's own data model (agents `0..n-1`, per-agent finite sets
of secret-origin ids). -/

/-- A consistent relabeling: agent and secret `i` both become `τ i`, so the
new set of agent `j` is the `τ`-image of the old set of agent `τ⁻¹ j`. -/
def relabelFin (n : ℕ) (τ : Equiv.Perm (Fin n)) (D : Fin n → Finset (Fin n)) :
    Fin n → Finset (Fin n) :=
  fun j => (D (τ.symm j)).image τ

/-- Render a distribution as the ordered list of its agents' sorted secret
lists. -/
def distTuple (n : ℕ) (D : Fin n → Finset (Fin n)) : List (List ℕ) :=
  (List.finRange n).map (fun i => ((D i).sort (· ≤ ·)).map Fin.val)

/-- Modelled from the spec: the exact canonical key — the minimum of the
rendered tuples over all `n!` consistent relabelings. -/
def exact_canonical_key (n : ℕ) (D : Fin n → Finset (Fin n)) : WithTop (List (List ℕ)) :=
  ((Finset.univ : Finset (Equiv.Perm (Fin n))).image
    (fun σ => distTuple n (relabelFin n σ D))).min

/-- A consistent relabeling on the list representation, for a permutation
`σ` given with its inverse `σinv`: the new set of agent `j` is the
`σ`-image of the old set of agent `σinv j`, re-sorted. -/
def relabel_list (σ σinv : ℕ → ℕ) (D : List (List ℕ)) : List (List ℕ) :=
  (List.range D.length).map (fun j => sortNat ((D.getD (σinv j) []).map σ))

/-- The transposition of agents 0 and 3 (its own inverse). -/
def swap03 : ℕ → ℕ := fun x => if x = 0 then 3 else if x = 3 then 0 else x


/-- Decidable equality on `Except`, used to settle the evaluated engine
results by `decide`. -/
instance exceptDecEq {e a : Type} [DecidableEq e] [DecidableEq a] :
    DecidableEq (Except e a) := fun x y =>
  match x, y with
  | .ok u, .ok v =>
      if h : u = v then isTrue (by rw [h]) else isFalse (fun he => h (Except.ok.inj he))
  | .error u, .error v =>
      if h : u = v then isTrue (by rw [h]) else isFalse (fun he => h (Except.error.inj he))
  | .ok _, .error _ => isFalse (fun he => Except.noConfusion he)
  | .error _, .ok _ => isFalse (fun he => Except.noConfusion he)

/-! Lemmas. -/

theorem mem_sinsert (a x : ℕ) (l : List ℕ) : a ∈ sinsert x l ↔ a = x ∨ a ∈ l := by
  induction l with
  | nil => simp [sinsert]
  | cons y ys ih =>
      by_cases h1 : x < y
      · simp [sinsert, h1]
      · by_cases h2 : x = y
        · subst h2; simp [sinsert, h1]
        · simp [sinsert, h1, h2, ih]
          tauto

theorem mem_sunion (a : ℕ) (xs ys : List ℕ) : a ∈ sunion xs ys ↔ a ∈ xs ∨ a ∈ ys := by
  induction xs with
  | nil => simp [sunion]
  | cons x xs ih =>
      simp only [sunion, List.foldr] at ih ⊢
      rw [mem_sinsert]
      simp only [List.mem_cons, ih]
      tauto

theorem smem_iff_mem (x : ℕ) (l : List ℕ) : smem x l = true ↔ x ∈ l := by
  induction l with
  | nil => simp [smem]
  | cons y ys ih => simp [smem, ih]

theorem ssubsetB_iff (xs ys : List ℕ) : ssubsetB xs ys = true ↔ ∀ x ∈ xs, x ∈ ys := by
  simp [ssubsetB, List.all_eq_true, smem_iff_mem]

theorem getD_set_self {α : Type} (l : List α) (i : ℕ) (x d : α) (h : i < l.length) :
    (l.set i x).getD i d = x := by
  induction l generalizing i with
  | nil => simp at h
  | cons y ys ih =>
      cases i with
      | zero => rfl
      | succ j => exact ih j (by simpa using h)

theorem getD_set_ne {α : Type} (l : List α) (i j : ℕ) (x d : α) (h : i ≠ j) :
    (l.set i x).getD j d = l.getD j d := by
  induction l generalizing i j with
  | nil => simp [List.set]
  | cons y ys ih =>
      cases i with
      | zero =>
          cases j with
          | zero => exact absurd rfl h
          | succ m => rfl
      | succ k =>
          cases j with
          | zero => rfl
          | succ m => exact ih k m (fun he => h (by rw [he]))

theorem chunked_singleton {α : Type} (x : α) (b : ℕ) (hb : 1 ≤ b) :
    chunked [x] b = [[x]] := by
  obtain ⟨c, rfl⟩ : ∃ c, b = c + 1 := ⟨b - 1, by omega⟩
  show chunked [x] (c + 1) = [[x]]
  rw [chunked, if_neg (by omega)]
  show chunkedGo (c + 1) (0 + 1) [x] = [[x]]
  rw [chunkedGo]
  · simp [List.take_succ_cons, List.drop_succ_cons, chunkedGo]
  · simp

/-! Claim theorems. -/

/-- C2 (counterexample): after the LNS calls (0,1) then (1,2) from the
initial 3-agent state, the unordered pair 0-1 is in `calledPairs`, yet
`allow_LNS` admits the call (0,1) again — so LNS admission is not
"pair not called before AND callee's set not a subset of the caller's". -/
theorem c2_lns_admits_called_pair :
    pairOf 0 1 ∈
      (((ProtocolState.initial (Distribution.initial 3) "LNS").update (0, 1) "LNS").update
        (1, 2) "LNS").calledPairs
    ∧ allow_LNS
        (((ProtocolState.initial (Distribution.initial 3) "LNS").update (0, 1) "LNS").update
          (1, 2) "LNS") (0, 1) = true := by
  decide

/-- C2 (amended): under LNS a call (a, b) is admitted iff the callee's
secret set is not a subset of the caller's — i.e. iff the caller would
learn something new; `calledPairs` plays no role in the test. -/
theorem c2_lns_admission_iff_new_secret (s : ProtocolState) (a b : ℕ) :
    allow_LNS s (a, b) = true
      ↔ ∃ x ∈ s.distribution.secrets.getD b [], x ∉ s.distribution.secrets.getD a [] := by
  rw [show allow_LNS s (a, b)
      = !(ssubsetB (s.distribution.secrets.getD b []) (s.distribution.secrets.getD a []))
    from rfl]
  rw [Bool.not_eq_true']
  rw [← Bool.not_eq_true]
  rw [ssubsetB_iff]
  push_neg
  rfl

/-- C3 (counterexample): the engine constructed for protocol CO has
`_use_keys_mode = True` (the capability probe always succeeds), so
`bfs_parallel` under CO ships canonical keys, not full `ProtocolState`
values. -/
theorem c3_co_engine_keys_mode :
    (mkEngine "CO").map (fun e => e.useKeysMode) = .ok true ∧ keysModeAvailable = true :=
  ⟨rfl, rfl⟩

/-- C3 (amended): every successfully constructed engine — whatever its
protocol — has `_use_keys_mode = True`, because `__init__` copies the
protocol-independent capability flag; no protocol ever uses states mode. -/
theorem c3_keys_mode_for_all_protocols (protocol : String) (e : ReachabilityEngine)
    (h : mkEngine protocol = .ok e) : e.useKeysMode = true := by
  unfold mkEngine at h
  split at h
  · rw [← Except.ok.inj h]
    rfl
  · exact absurd h (by simp)

/-- Witness for C3's amended theorem at the concrete protocol CO. -/
theorem c3_keys_mode_witness :
    (⟨"CO", true⟩ : ReachabilityEngine).useKeysMode = true :=
  c3_keys_mode_for_all_protocols "CO" ⟨"CO", true⟩ rfl

/-- C4 (counterexample): the heuristic `canonical_key` is not invariant
under consistent relabelings.  The 4-agent distribution
`[[0,1],[0,1,2],[0,1,2],[3]]` (reachable under ANY via the calls (0,1),
(1,2)) and its relabeling under the transposition of agents 0 and 3 are
isomorphic, yet their keys differ — which also refutes
"isomorphic iff equal canonical keys". -/
theorem c4_heuristic_key_not_relabel_invariant :
    canonical_key (relabel_list swap03 swap03 [[0, 1], [0, 1, 2], [0, 1, 2], [3]])
      ≠ canonical_key [[0, 1], [0, 1, 2], [0, 1, 2], [3]] := by
  decide

/-- C4 (amended): the exact permutation-search canonical key of the spec
(modelled from the spec, absent from `src/`) is invariant under every
consistent relabeling of agent indices: relabeling a distribution by any
permutation leaves the exact key unchanged, so isomorphic distributions
always receive equal exact keys. -/
theorem c4_exact_key_relabel_invariant (n : ℕ) (τ : Equiv.Perm (Fin n))
    (D : Fin n → Finset (Fin n)) :
    exact_canonical_key n (relabelFin n τ D) = exact_canonical_key n D := by
  have hcomp : ∀ σ : Equiv.Perm (Fin n),
      relabelFin n σ (relabelFin n τ D) = relabelFin n (σ * τ) D := by
    intro σ
    funext j
    simp [relabelFin, Finset.image_image, Equiv.Perm.mul_def, Equiv.symm_trans_apply]
  unfold exact_canonical_key
  congr 1
  ext x
  simp only [Finset.mem_image, Finset.mem_univ, true_and, hcomp]
  constructor
  · rintro ⟨σ, rfl⟩
    exact ⟨σ * τ, rfl⟩
  · rintro ⟨ρ, rfl⟩
    exact ⟨ρ * τ⁻¹, by rw [show ρ * τ⁻¹ * τ = ρ from by group]⟩

/-- C6: applying a call (a, b) with a ≠ b (via `ProtocolState.update`)
yields a distribution where the caller's and the callee's secret sets both
equal the union of their previous sets, and every other agent's set is
unchanged.  (The embedding is purely functional: `update` returns a fresh
state and the original value is untouched, mirroring the frozen
dataclasses of the source.) -/
theorem c6_update_union (s : ProtocolState) (protocol : String) (a b : ℕ)
    (ha : a < s.distribution.secrets.length) (hb : b < s.distribution.secrets.length)
    (hab : a ≠ b) :
    ((s.update (a, b) protocol).distribution.secrets.getD a []
        = sunion (s.distribution.secrets.getD a []) (s.distribution.secrets.getD b []))
    ∧ ((s.update (a, b) protocol).distribution.secrets.getD b []
        = sunion (s.distribution.secrets.getD a []) (s.distribution.secrets.getD b []))
    ∧ (∀ x : ℕ, x ∈ (s.update (a, b) protocol).distribution.secrets.getD a []
        ↔ x ∈ s.distribution.secrets.getD a [] ∨ x ∈ s.distribution.secrets.getD b [])
    ∧ (∀ i : ℕ, i ≠ a → i ≠ b →
        (s.update (a, b) protocol).distribution.secrets.getD i []
          = s.distribution.secrets.getD i []) := by
  have hA : (s.update (a, b) protocol).distribution.secrets.getD a []
      = sunion (s.distribution.secrets.getD a []) (s.distribution.secrets.getD b []) := by
    show ((s.distribution.secrets.set a
        (sunion (s.distribution.secrets.getD a []) (s.distribution.secrets.getD b []))).set b
        (sunion (s.distribution.secrets.getD a []) (s.distribution.secrets.getD b []))).getD a []
      = _
    rw [getD_set_ne _ _ _ _ _ (Ne.symm hab)]
    exact getD_set_self _ _ _ _ ha
  have hB : (s.update (a, b) protocol).distribution.secrets.getD b []
      = sunion (s.distribution.secrets.getD a []) (s.distribution.secrets.getD b []) := by
    show ((s.distribution.secrets.set a
        (sunion (s.distribution.secrets.getD a []) (s.distribution.secrets.getD b []))).set b
        (sunion (s.distribution.secrets.getD a []) (s.distribution.secrets.getD b []))).getD b []
      = _
    exact getD_set_self _ _ _ _ (by rw [List.length_set]; exact hb)
  refine ⟨hA, hB, ?_, ?_⟩
  · intro x
    rw [hA, mem_sunion]
  · intro i hia hib
    show ((s.distribution.secrets.set a _).set b _).getD i [] = _
    rw [getD_set_ne _ _ _ _ _ (Ne.symm hib), getD_set_ne _ _ _ _ _ (Ne.symm hia)]

/-- Witness for C6 at a concrete state: the initial 3-agent ANY state,
call (0, 1). -/
theorem c6_update_union_witness :
    ((ProtocolState.initial (Distribution.initial 3) "ANY").update (0, 1) "ANY").distribution.secrets.getD 0 []
      = sunion ((ProtocolState.initial (Distribution.initial 3) "ANY").distribution.secrets.getD 0 [])
          ((ProtocolState.initial (Distribution.initial 3) "ANY").distribution.secrets.getD 1 []) :=
  (c6_update_union (ProtocolState.initial (Distribution.initial 3) "ANY") "ANY" 0 1
    (by decide) (by decide) (by decide)).1

/-- C7: the data-model invariants.  The initial distribution has exactly
`n` secret sets and agent `i`'s set contains its own secret `i`; a call
between valid agents preserves the number of sets, preserves
`i ∈ secrets[i]`, and never removes a secret from any agent's set
(union-only monotonicity). -/
theorem c7_invariants :
    (∀ n : ℕ, (Distribution.initial n).secrets.length = n)
    ∧ (∀ n i : ℕ, i < n → i ∈ (Distribution.initial n).secrets.getD i [])
    ∧ (∀ (d : Distribution) (a b : ℕ), (d.apply_call a b).secrets.length = d.secrets.length)
    ∧ (∀ (d : Distribution) (a b i : ℕ), a < d.secrets.length → b < d.secrets.length →
        i ∈ d.secrets.getD i [] → i ∈ (d.apply_call a b).secrets.getD i [])
    ∧ (∀ (d : Distribution) (a b i x : ℕ), a < d.secrets.length → b < d.secrets.length →
        x ∈ d.secrets.getD i [] → x ∈ (d.apply_call a b).secrets.getD i []) := by
  have hmono : ∀ (d : Distribution) (a b i x : ℕ), a < d.secrets.length →
      b < d.secrets.length → x ∈ d.secrets.getD i [] →
      x ∈ (d.apply_call a b).secrets.getD i [] := by
    intro d a b i x ha hb hx
    show x ∈ ((d.secrets.set a (sunion (d.secrets.getD a []) (d.secrets.getD b []))).set b
        (sunion (d.secrets.getD a []) (d.secrets.getD b []))).getD i []
    by_cases hib : i = b
    · subst hib
      rw [getD_set_self _ _ _ _ (by rw [List.length_set]; exact hb)]
      exact (mem_sunion x _ _).mpr (Or.inr hx)
    · rw [getD_set_ne _ _ _ _ _ (fun he => hib he.symm)]
      by_cases hia : i = a
      · subst hia
        rw [getD_set_self _ _ _ _ ha]
        exact (mem_sunion x _ _).mpr (Or.inl hx)
      · rw [getD_set_ne _ _ _ _ _ (fun he => hia he.symm)]
        exact hx
  refine ⟨?_, ?_, ?_, ?_, hmono⟩
  · intro n
    simp [Distribution.initial]
  · intro n i h
    have : (Distribution.initial n).secrets.getD i [] = [i] := by
      rw [Distribution.initial]
      rw [List.getD_eq_getElem?_getD, List.getElem?_map, List.getElem?_range h]
      rfl
    rw [this]
    simp
  · intro d a b
    show ((d.secrets.set a _).set b _).length = _
    rw [List.length_set, List.length_set]
  · intro d a b i ha hb hi
    exact hmono d a b i i ha hb hi

/-- Witness for C7 at a concrete distribution: preservation of
`i ∈ secrets[i]` for agent 2 across the call (0, 1) on the initial 3-agent
distribution. -/
theorem c7_invariants_witness :
    2 ∈ ((Distribution.initial 3).apply_call 0 1).secrets.getD 2 [] :=
  c7_invariants.2.2.2.1 (Distribution.initial 3) 0 1 2 (by decide) (by decide) (by decide)

/-- C8: for every protocol name and every n ≥ 1, `bfs(n, 0)`
short-circuits to reachable_count 1, a layers mapping whose only entry is
depth 0 holding exactly the initial state's canonical key, and 0
transitions. -/
theorem c8_bfs_depth_zero (protocol : String) (n : ℕ) (h : 1 ≤ n) :
    bfs protocol n 0
      = .ok ⟨1, [(0, [canonical_key (Distribution.initial n).secrets])], [(0, 1)], 0⟩ := rfl

/-- Witness for C8 at protocol CO, n = 2. -/
theorem c8_bfs_depth_zero_witness :
    bfs "CO" 2 0
      = .ok ⟨1, [(0, [canonical_key (Distribution.initial 2).secrets])], [(0, 1)], 0⟩ :=
  c8_bfs_depth_zero "CO" 2 (by decide)

/-- C9: engine construction succeeds exactly for the six protocol names
ANY, CO, LNS, TOK, SPI, ATK, and fails immediately for every other
string. -/
theorem c9_mkEngine_ok_iff (protocol : String) :
    (mkEngine protocol).isOk = true
      ↔ (protocol = "ANY" ∨ protocol = "CO" ∨ protocol = "LNS" ∨ protocol = "TOK"
          ∨ protocol = "SPI" ∨ protocol = "ATK") := by
  by_cases h : protocol = "ANY" ∨ protocol = "CO" ∨ protocol = "LNS" ∨ protocol = "TOK"
      ∨ protocol = "SPI" ∨ protocol = "ATK"
  · simp [mkEngine, h, Except.isOk, Except.toBool]
  · simp [mkEngine, h, Except.isOk, Except.toBool]

/-- C10: constructing an engine for the reserved name ATK succeeds, but
because `ALLOW_MAP` has no "ATK" entry, every later `bfs` or
`bfs_parallel` run (n ≥ 2, max_depth ≥ 1, any workers, any positive batch
size) fails with the `KeyError` lookup failure at the very first state
expansion. -/
theorem c10_atk_lookup_failure :
    (∃ e, mkEngine "ATK" = .ok e)
    ∧ (∀ n maxDepth workers batchSize : ℕ, 2 ≤ n → 1 ≤ maxDepth → 1 ≤ batchSize →
        bfs "ATK" n maxDepth = .error "KeyError: ATK"
        ∧ bfs_parallel "ATK" n maxDepth workers batchSize = .error "KeyError: ATK") := by
  constructor
  · exact ⟨⟨"ATK", true⟩, rfl⟩
  · intro n maxDepth workers batchSize hn hd hb
    have hperm : ∀ s : ProtocolState, permitted_calls s "ATK" = .error "KeyError: ATK" :=
      fun _ => rfl
    obtain ⟨d, rfl⟩ : ∃ d, maxDepth = d + 1 := ⟨maxDepth - 1, by omega⟩
    constructor
    · show bfs "ATK" n (d + 1) = _
      rw [bfs]
      rw [if_neg (by omega : ¬ (d + 1 = 0))]
      show bfsLoop "ATK" (d + 1) (999999 + 1)
          ((ProtocolState.initial (Distribution.initial n) "ATK", 0) :: []) _ _ 0 = _
      rw [bfsLoop]
      rw [if_neg (by omega : ¬ (0 = d + 1))]
      rw [hperm]
    · show bfs_parallel "ATK" n (d + 1) workers batchSize = _
      rw [bfs_parallel]
      rw [if_neg (by omega : ¬ (d + 1 = 0))]
      show parLoopKeys "ATK" batchSize (d + 1) 0
          (canonical_key (Distribution.initial n).secrets :: []) _ _ 0 = _
      rw [parLoopKeys]
      · rw [show chunked [canonical_key (Distribution.initial n).secrets] batchSize
            = [[canonical_key (Distribution.initial n).secrets]] from chunked_singleton _ _ hb]
        rw [processBatchesKeys]
        rw [show expandBatchKeys "ATK" [canonical_key (Distribution.initial n).secrets]
            = .error "KeyError: ATK" from by
          rw [expandBatchKeys, expandKeysGo]
          rw [hperm]
          rfl]
      · simp

/-- Witness for C10 at n = 2, max_depth = 1, workers = 4,
batch_size = 2048. -/
theorem c10_atk_lookup_failure_witness :
    bfs "ATK" 2 1 = .error "KeyError: ATK"
    ∧ bfs_parallel "ATK" 2 1 4 2048 = .error "KeyError: ATK" :=
  c10_atk_lookup_failure.2 2 1 4 2048 (by decide) (by decide) (by decide)

set_option maxRecDepth 1000000

set_option maxHeartbeats 4000000

/-- C1 (counterexample): under SPI with n = 4, max_depth = 10 (workers 4,
batch_size 2048), the serial and parallel engines disagree on
`layer_sizes`: the keys-only parallel mode rebuilds representative states
with a fresh full token set, so it finds one distribution one level
earlier than the serial engine (layer 4 has 6 keys instead of 5 and layer
5 has 1 instead of 2); `reachable_count` happens to agree (15). -/
theorem c1_spi_n4_serial_parallel_differ :
    (bfs "SPI" 4 10).map (fun r => r.layer_sizes)
      = .ok [(0, 1), (1, 1), (2, 2), (3, 4), (4, 5), (5, 2)]
    ∧ (bfs_parallel "SPI" 4 10 4 2048).map (fun r => r.layer_sizes)
      = .ok [(0, 1), (1, 1), (2, 2), (3, 4), (4, 6), (5, 1)]
    ∧ (bfs "SPI" 4 10).map (fun r => r.layer_sizes)
      ≠ (bfs_parallel "SPI" 4 10 4 2048).map (fun r => r.layer_sizes) := by
  decide

/-- C1 (amended): the serial and the parallel engine report identical
`reachable_count` and identical `layer_sizes` for the protocol ANY —
verified here for n ∈ \{1, 2, 3, 4\} with max_depth 10, workers 4,
batch_size 2048.  (For the other protocols the engines can diverge,
because keys-only reconstruction drops `tokens` and `calledPairs`.) -/
theorem c1_serial_parallel_agree_for_ANY :
    ((bfs "ANY" 1 10).map (fun r => (r.reachable_count, r.layer_sizes))
      = (bfs_parallel "ANY" 1 10 4 2048).map (fun r => (r.reachable_count, r.layer_sizes)))
    ∧ ((bfs "ANY" 2 10).map (fun r => (r.reachable_count, r.layer_sizes))
      = (bfs_parallel "ANY" 2 10 4 2048).map (fun r => (r.reachable_count, r.layer_sizes)))
    ∧ ((bfs "ANY" 3 10).map (fun r => (r.reachable_count, r.layer_sizes))
      = (bfs_parallel "ANY" 3 10 4 2048).map (fun r => (r.reachable_count, r.layer_sizes)))
    ∧ ((bfs "ANY" 4 10).map (fun r => (r.reachable_count, r.layer_sizes))
      = (bfs_parallel "ANY" 4 10 4 2048).map (fun r => (r.reachable_count, r.layer_sizes))) := by
  decide

/-- C5: what the serial engine actually returns at max_depth 10.  The
n = 2 and n = 3 rows and the LNS / CO cells at n = 4 match the claimed
table; the ANY, TOK and SPI cells at n = 4 do not — the engine reports 15
where the claim (and the repository's own test `test_table1_counts.py`)
says 16, because the heuristic `canonical_key` merges two non-isomorphic
distributions into one bucket. -/
theorem c5_engine_counts_eval :
    ((bfs "ANY" 2 10).map (fun r => r.reachable_count) = .ok 2)
    ∧ ((bfs "CO" 2 10).map (fun r => r.reachable_count) = .ok 2)
    ∧ ((bfs "LNS" 2 10).map (fun r => r.reachable_count) = .ok 2)
    ∧ ((bfs "TOK" 2 10).map (fun r => r.reachable_count) = .ok 2)
    ∧ ((bfs "SPI" 2 10).map (fun r => r.reachable_count) = .ok 2)
    ∧ ((bfs "ANY" 3 10).map (fun r => r.reachable_count) = .ok 4)
    ∧ ((bfs "CO" 3 10).map (fun r => r.reachable_count) = .ok 4)
    ∧ ((bfs "LNS" 3 10).map (fun r => r.reachable_count) = .ok 4)
    ∧ ((bfs "TOK" 3 10).map (fun r => r.reachable_count) = .ok 4)
    ∧ ((bfs "SPI" 3 10).map (fun r => r.reachable_count) = .ok 4)
    ∧ ((bfs "LNS" 4 10).map (fun r => r.reachable_count) = .ok 15)
    ∧ ((bfs "CO" 4 10).map (fun r => r.reachable_count) = .ok 15)
    ∧ ((bfs "SPI" 4 10).map (fun r => r.reachable_count) = .ok 15)
    ∧ ((bfs "TOK" 4 10).map (fun r => r.reachable_count) = .ok 15)
    ∧ ((bfs "ANY" 4 10).map (fun r => r.reachable_count) = .ok 15) := by
  decide
